import Mathlib

/-!
Verification of the flander repository: a shallow embedding of
`src/strategies/aggregate.py` (the divide-and-conquer robust aggregator
`aggregate_dnc`) and of the configuration-handling control flow of
`src/main.py`, together with theorems settling the frozen claims.

Numeric model: numpy float64 values are modelled as exact rationals (ℚ);
numpy 1-D arrays as `List ℚ`; the layered parameters of a client
(`NDArrays`) as `List (List ℚ)` in row-major order.  The process-wide
numpy random generator is modelled as a stream `g : ℕ → ℕ` of raw draws:
`np.random.randint(0, bound, size)` reads the next `size` positions of
the stream and reduces each draw modulo `bound`.
-/

namespace Flander

/-- Python `int(q)` on a float/rational: truncation toward zero. -/
def pyInt (q : ℚ) : ℤ := if 0 ≤ q then ⌊q⌋ else -⌊-q⌋

/-- Python slicing `l[:k]` for an arbitrary integer `k`: for `k ≥ 0` the
first `min k (length l)` elements, for `k < 0` all but the last `-k`. -/
def pySliceTo {α : Type} (l : List α) (k : ℤ) : List α :=
  if 0 ≤ k then l.take k.toNat else l.take (l.length - (-k).toNat)

/-- Python `zip(*xss)` (as used on lists of equal-length sequences):
transpose truncated to the shortest row; `zip()` of nothing is empty. -/
def pyZipStar {α : Type} [Inhabited α] : List (List α) → List (List α)
  | [] => []
  | x :: xs =>
    let n := (xs.map List.length).foldl Nat.min x.length
    (List.range n).map (fun i => (x :: xs).map (fun row => row.getD i default))

/-- Model of `functools.reduce(np.add, rows)` on a non-empty list of equal-length
vectors: element-wise sum (defined as `[]` on the empty list, which in
Python would raise; all uses are on non-empty lists). -/
def npAddReduce : List (List ℚ) → List ℚ
  | [] => []
  | v :: vs => vs.foldl (fun a b => List.zipWith (fun x y => x + y) a b) v

/-- Model of `np.inner` of two 1-D vectors (truncating at the shorter length,
where numpy would raise on a mismatch; all uses are on equal lengths). -/
def dot (x y : List ℚ) : ℚ := (List.zipWith (fun a b => a * b) x y).sum

/-- Model of `flwr.server.strategy.aggregate.aggregate`, the num_examples-weighted
mean used both by FedAvg and by `aggregate_dnc`.  Modelled from the flwr
library source: total = Σ num_examples; the layers of each client are scaled
by its num_examples; layers are combined positionally by `zip(*...)`,
summed with `reduce(np.add, ...)` and divided by the total. -/
def aggregate (results : List ((List (List ℚ)) × ℕ)) : List (List ℚ) :=
  let total : ℚ := ((results.map Prod.snd).sum : ℕ)
  let weighted := results.map
    (fun wn => wn.1.map (fun layer => layer.map (fun x => x * (wn.2 : ℚ))))
  (pyZipStar weighted).map (fun row => (npAddReduce row).map (fun x => x / total))

/-- Aggregation of a round under FedAvg is exactly the flwr weighted mean. -/
def fedavg (results : List ((List (List ℚ)) × ℕ)) : List (List ℚ) :=
  aggregate results

/-- Modelled from the spec: `flatten_params` (in `src/utils.py`, not
under `src/`) concatenates all layers of the parameters of one client into a
single flat vector, "preserving layer order and per-layer element
order". -/
def flatten_params (params : List (List ℚ)) : List ℚ := params.flatten

/-- The flattened client updates `[flatten_params(params) for params, _ in results]`. -/
def dncFlat (results : List ((List (List ℚ)) × ℕ)) : List (List ℚ) :=
  results.map (fun r => flatten_params r.1)

/-- Model of `np.random.randint(0, bound, size=size)` read from the global
generator stream `g` starting at stream position `start`: `size` raw
draws, each reduced modulo `bound`.  Sampling is with replacement. -/
def randints (g : ℕ → ℕ) (start bound size : ℕ) : List ℕ :=
  (List.range size).map (fun j => g (start + j) % bound)

/-- The coordinate indices `params_indexes` sampled in iteration `k` of
`aggregate_dnc` (only used when `b > 0` and the flattened length `d`
exceeds `b`).  Iteration `k` consumes the `k`-th block of `b` draws of
the global stream, since the subsampling branch is taken in every
iteration or in none. -/
def dncSampledIdxs (g : ℕ → ℕ) (d : ℕ) (b : ℤ) (k : ℕ) : List ℕ :=
  randints g (k * b.toNat) d b.toNat

/-- Computation of `sampled_params` in iteration `k`: if `b > 0` and the flattened
length exceeds `b`, the flattened update of every client is projected onto
the same sampled index sequence (`fp[params_indexes]`); otherwise the
flattened updates are used as they are.  (Inside the branch the source
reassigns `b = min(b, len(flattened_params[0]))`, which is a no-op there
since the length exceeds `b`.) -/
def dncSampled (g : ℕ → ℕ) (flat : List (List ℚ)) (b : ℤ) (k : ℕ) : List (List ℚ) :=
  let d := (flat.headD []).length
  if 0 < b ∧ b.toNat < d then
    let idxs := dncSampledIdxs g d b k
    flat.map (fun fp => idxs.map (fun j => fp.getD j 0))
  else flat

/-- Computation of `mu`: coordinate-wise mean of the (possibly projected) updates,
`[reduce(np.add, layer_updates) / len(sampled_params) for layer_updates
in zip(*sampled_params)]`. -/
def dncMu (sampled : List (List ℚ)) : List ℚ :=
  (pyZipStar sampled).map (fun col => col.sum / (sampled.length : ℚ))

/-- Computation of `model_c`: each (possibly projected) update centered by subtracting
`mu`. -/
def dncModelC (sampled : List (List ℚ)) : List (List ℚ) :=
  sampled.map (fun sp => List.zipWith (fun a x => a - x) sp (dncMu sampled))

/-- The per-iteration scores of `aggregate_dnc` as the source computes
them: `s = [np.inner(model_i, v[0, :]) ** 2 for model_i in
sampled_params]`, where `v[0, :]` is the leading right singular vector
of `model_c` delivered by the oracle `svd0` (a total function
abstracting `np.linalg.svd(model_c, full_matrices=False)[2][0]`).  Note
the source takes the inner product with the UNCENTERED `sampled_params`,
not with the centered `model_c`. -/
def dncScores (g : ℕ → ℕ) (flat : List (List ℚ)) (b : ℤ)
    (svd0 : List (List ℚ) → List ℚ) (k : ℕ) : List ℚ :=
  let sampled := dncSampled g flat b k
  sampled.map (fun sp => dot sp (svd0 (dncModelC sampled)) ^ 2)

/-- Scores as the spec words them: "score each client as the squared
inner product of its centered update with `v`" — the squared inner
product of the rows of `model_c` with the leading right singular
vector.  Stated for comparison with `dncScores`. -/
def dncScoresCentered (g : ℕ → ℕ) (flat : List (List ℚ)) (b : ℤ)
    (svd0 : List (List ℚ) → List ℚ) (k : ℕ) : List ℚ :=
  let sampled := dncSampled g flat b k
  (dncModelC sampled).map (fun mc => dot mc (svd0 (dncModelC sampled)) ^ 2)

/-- Model of `np.argsort`: the indices of the score list sorted by ascending
score, modelled as a stable sort (equal scores keep index order, which
also matches numpy on all-equal inputs). -/
def argsortKey (s : List ℚ) : List ℕ :=
  List.insertionSort (fun i j => s.getD i 0 ≤ s.getD j 0) (List.range s.length)

/-- Computation of `to_keep = int(num_clients - c * num_malicious)` (Python `int`
truncates toward zero). -/
def dncToKeep (n : ℕ) (c : ℚ) (m : ℕ) : ℤ := pyInt ((n : ℚ) - c * (m : ℚ))

/-- The kept index set of iteration `k`:
`set(np.argsort(np.array(s))[:to_keep].tolist())`. -/
def dncKept (g : ℕ → ℕ) (results : List ((List (List ℚ)) × ℕ)) (c : ℚ) (b : ℤ)
    (m : ℕ) (svd0 : List (List ℚ) → List ℚ) (k : ℕ) : Finset ℕ :=
  let s := dncScores g (dncFlat results) b svd0 k
  (pySliceTo (argsortKey s) (dncToKeep results.length c m)).toFinset

/-- The list `I_good` of kept index sets over the `niters` iterations. -/
def dncKeptSets (g : ℕ → ℕ) (results : List ((List (List ℚ)) × ℕ)) (c : ℚ) (b : ℤ)
    (niters : ℕ) (m : ℕ) (svd0 : List (List ℚ) → List ℚ) : List (Finset ℕ) :=
  (List.range niters).map (fun k => dncKept g results c b m svd0 k)

/-- Computation of `I_final = set.intersection(*I_good)`: `none` models the `TypeError`
Python raises when `I_good` is empty (`niters = 0`). -/
def dncIntersection (g : ℕ → ℕ) (results : List ((List (List ℚ)) × ℕ)) (c : ℚ)
    (b : ℤ) (niters : ℕ) (m : ℕ) (svd0 : List (List ℚ) → List ℚ) :
    Option (Finset ℕ) :=
  match dncKeptSets g results c b niters m svd0 with
  | [] => none
  | s :: ss => some (ss.foldl (fun a t => a ∩ t) s)

/-- Embedding of `aggregate_dnc` from `src/strategies/aggregate.py`.  Here `none` models
the unhandled Python exceptions on degenerate inputs (`results` empty:
`IndexError`/`LinAlgError`; `niters = 0`: `TypeError`).  Otherwise the
survivors `res = [results[i] for i in I_final]` (the set iterated in
ascending index order) are combined by the flwr weighted mean. -/
def aggregate_dnc (g : ℕ → ℕ) (results : List ((List (List ℚ)) × ℕ)) (c : ℚ)
    (b : ℤ) (niters : ℕ) (m : ℕ) (svd0 : List (List ℚ) → List ℚ) :
    Option (List (List ℚ)) :=
  if results.isEmpty then none
  else
    match dncIntersection g results c b niters m svd0 with
    | none => none
    | some I =>
      some (aggregate ((I.sort (fun a x => a ≤ x)).map
        (fun i => results.getD i ([], 0))))

/-- A total oracle for `np.linalg.svd(model_c, full_matrices=False)[2][0]`
on single-column matrices: the right singular vector space is spanned by
the unit vector `[1]` (numpy returns `[1]` or `[-1]`; the squared scores
are invariant under the sign). -/
def svdUnit1 : List (List ℚ) → List ℚ := fun _ => [1]

/-- The opposite-sign variant of `svdUnit1`. -/
def svdUnit1Neg : List (List ℚ) → List ℚ := fun _ => [-1]

/-! Model of the configuration control flow of `src/main.py` -/

/-- The configuration fields of `main` that decide skipping, the
configuration errors and whether the simulation starts. -/
structure MainConfig where
  strategyName : String
  attackFn : String
  numMalicious : ℤ
  dataset : String
deriving DecidableEq

/-- Kinds of uncaught configuration errors `main` can raise before the
simulation starts. -/
inductive ConfigErrorKind where
  | datasetUnsupported
  | strategyUnsupported
  | attackKeyError
deriving DecidableEq

/-- What `main` does with a configuration before (or instead of)
starting the simulation. -/
inductive MainOutcome where
  | skipped
  | configError (kind : ConfigErrorKind)
  | simulationStarted
deriving DecidableEq

/-- Predicate that holds exactly on the `configError` outcome (an uncaught
`ValueError`/`KeyError` raised before the simulation starts). -/
def MainOutcome.isConfigError : MainOutcome → Bool
  | .configError _ => true
  | _ => false

/-- The strategy names `main` dispatches on (lines 179-280). -/
def supportedStrategies : List String :=
  ["flanders", "krum", "dnc", "fedavg", "bulyan", "trimmedmean", "fedmedian"]

/-- The keys of the `attacks` dictionary (lines 89-95). -/
def supportedAttacks : List String := ["na", "gaussian", "lie", "fang", "minmax"]

/-- The dataset names `main` prepares (lines 115-149). -/
def supportedDatasets : List String :=
  ["mnist", "fmnist", "cifar", "cifar100", "income", "house"]

/-- The configuration control flow of `main`, in source order: the two
skip guards (lines 79-85) return early; then dataset preparation raises
`ValueError` for an unsupported dataset (line 149); then strategy
dispatch raises `ValueError` for an unsupported strategy (line 280);
then `attacks[attack_fn]` (line 291), evaluated while building the
`start_simulation` arguments, raises `KeyError` for an unsupported
attack name; only then does the simulation start. -/
def mainOutcome (cfg : MainConfig) : MainOutcome :=
  if cfg.strategyName = "bulyan" ∧ 20 < cfg.numMalicious then .skipped
  else if cfg.attackFn ≠ "gaussian" ∧ cfg.numMalicious = 0 ∧ cfg.attackFn ≠ "na" then
    .skipped
  else if cfg.dataset ∉ supportedDatasets then .configError .datasetUnsupported
  else if cfg.strategyName ∉ supportedStrategies then
    .configError .strategyUnsupported
  else if cfg.attackFn ∉ supportedAttacks then .configError .attackKeyError
  else .simulationStarted

/-- The fit configuration returned by `fit_config` in `src/main.py`. -/
structure FitConfig where
  epochs : ℕ
  batch_size : ℕ
deriving DecidableEq

/-- Embedding of `fit_config(server_round)` from `src/main.py` (lines 342-348). -/
def fit_config (server_round : ℕ) : FitConfig :=
  { epochs := 1, batch_size := 32 }

/-! Spec-side definitions used for comparison -/

/-- All clients share the layer shapes of the first client: the shape
invariant of the data model in the spec (one array per model layer of the
common global model). -/
def UniformShape (results : List ((List (List ℚ)) × ℕ)) : Prop :=
  ∀ x ∈ results, x.1.length = (results.headD ([], 0)).1.length ∧
    ∀ j < (results.headD ([], 0)).1.length,
      (x.1.getD j []).length = ((results.headD ([], 0)).1.getD j []).length

/-- Formalization of the num_examples-weighted mean of the surviving original
(unprojected) updates": per layer and coordinate, the sum of
`num_examples · value` over the surviving indices divided by the sum of
the surviving `num_examples`. -/
def weightedMeanSpec (results : List ((List (List ℚ)) × ℕ)) (I : Finset ℕ) :
    List (List ℚ) :=
  let W : ℚ := I.sum (fun i => ((results.getD i ([], 0)).2 : ℚ))
  let tmpl := (results.headD ([], 0)).1
  (List.range tmpl.length).map (fun j =>
    (List.range ((tmpl.getD j []).length)).map (fun t =>
      (I.sum (fun i => ((results.getD i ([], 0)).2 : ℚ) *
        (((results.getD i ([], 0)).1.getD j []).getD t 0))) / W))

/-- The weighted mean written over a list of selected clients (helper
between `aggregate` and `weightedMeanSpec`). -/
def weightedMeanList (sel : List ((List (List ℚ)) × ℕ)) : List (List ℚ) :=
  let W : ℚ := ((sel.map Prod.snd).sum : ℕ)
  let tmpl := (sel.headD ([], 0)).1
  (List.range tmpl.length).map (fun j =>
    (List.range ((tmpl.getD j []).length)).map (fun t =>
      ((sel.map (fun x => ((x.1.getD j []).getD t 0) * (x.2 : ℚ))).sum) / W))

/-! Helper lemmas -/

theorem getD_map_of_lt {α β : Type} (f : α → β) (l : List α) (j : ℕ) (d : α) (e : β)
    (h : j < l.length) : (l.map f).getD j e = f (l.getD j d) := by
  rw [List.getD_eq_getElem?_getD, List.getD_eq_getElem?_getD, List.getElem?_map,
    List.getElem?_eq_getElem h]
  simp

theorem getD_range_map {α : Type} (d : α) (l : List α) :
    (List.range l.length).map (fun i => l.getD i d) = l := by
  apply List.ext_getElem
  · simp
  · intro i h1 h2
    simp [List.getD_eq_getElem?_getD, List.getElem?_eq_getElem h2]

theorem foldl_min_const (L : ℕ) : ∀ (ls : List ℕ), (∀ x ∈ ls, x = L) →
    ls.foldl Nat.min L = L
  | [], _ => rfl
  | a :: ls, h => by
    have ha : a = L := h a (by simp)
    subst ha
    have : Nat.min a a = a := Nat.min_self a
    simpa [this] using foldl_min_const a ls (fun x hx => h x (by simp [hx]))

theorem pyZipStar_uniform {α : Type} [Inhabited α] (xss : List (List α)) (L : ℕ)
    (hne : xss ≠ []) (hL : ∀ r ∈ xss, r.length = L) :
    pyZipStar xss =
      (List.range L).map (fun i => xss.map (fun row => row.getD i default)) := by
  match xss, hne with
  | x :: xs, _ =>
    have hx : x.length = L := hL x (by simp)
    have hfold : (xs.map List.length).foldl Nat.min x.length = L := by
      rw [hx]
      refine foldl_min_const L _ ?_
      intro y hy
      simp only [List.mem_map] at hy
      obtain ⟨r, hr, rfl⟩ := hy
      exact hL r (by simp [hr])
    simp only [pyZipStar, hfold]

theorem zipWith_getD (f : ℚ → ℚ → ℚ) : ∀ (a b : List ℚ) (t : ℕ),
    t < a.length → t < b.length →
    (List.zipWith f a b).getD t 0 = f (a.getD t 0) (b.getD t 0)
  | [], _, _, ha, _ => by simp at ha
  | _ :: _, [], _, _, hb => by simp at hb
  | x :: a, y :: b, 0, _, _ => by simp
  | x :: a, y :: b, t + 1, ha, hb => by
    simp only [List.zipWith_cons_cons, List.getD_cons_succ]
    exact zipWith_getD f a b t (by simpa using ha) (by simpa using hb)

theorem foldl_zipWith_add (m : ℕ) : ∀ (vs : List (List ℚ)) (v : List ℚ),
    v.length = m → (∀ r ∈ vs, r.length = m) →
    vs.foldl (fun a b => List.zipWith (fun x y => x + y) a b) v =
      (List.range m).map (fun t => v.getD t 0 + (vs.map (fun r => r.getD t 0)).sum)
  | [], v, hv, _ => by
    subst hv
    simpa using (getD_range_map 0 v).symm
  | r :: vs, v, hv, hr => by
    have hrm : r.length = m := hr r (by simp)
    have hz : (List.zipWith (fun x y => x + y) v r).length = m := by
      simp [List.length_zipWith, hv, hrm]
    rw [List.foldl_cons,
      foldl_zipWith_add m vs (List.zipWith (fun x y => x + y) v r) hz
        (fun x hx => hr x (by simp [hx]))]
    refine List.map_congr_left ?_
    intro t ht
    simp only [List.mem_range] at ht
    rw [zipWith_getD (fun x y => x + y) v r t (by omega) (by omega)]
    simp [add_assoc]

theorem npAddReduce_uniform (m : ℕ) (rows : List (List ℚ)) (hne : rows ≠ [])
    (hm : ∀ r ∈ rows, r.length = m) :
    npAddReduce rows =
      (List.range m).map (fun t => (rows.map (fun r => r.getD t 0)).sum) := by
  match rows, hne with
  | v :: vs, _ =>
    rw [npAddReduce,
      foldl_zipWith_add m vs v (hm v (by simp)) (fun x hx => hm x (by simp [hx]))]
    simp

/-- Under the shape invariant, the flwr weighted-mean `aggregate` equals
the coordinate-wise weighted-mean formula. -/
theorem aggregate_uniform (sel : List ((List (List ℚ)) × ℕ)) (hne : sel ≠ [])
    (hsh : ∀ x ∈ sel, x.1.length = (sel.headD ([], 0)).1.length ∧
      ∀ j < (sel.headD ([], 0)).1.length,
        (x.1.getD j []).length = ((sel.headD ([], 0)).1.getD j []).length) :
    aggregate sel = weightedMeanList sel := by
  have hwlen : ∀ row ∈ sel.map
      (fun wn => wn.1.map (fun layer => layer.map (fun x => x * (wn.2 : ℚ)))),
      row.length = (sel.headD ([], 0)).1.length := by
    intro row hrow
    simp only [List.mem_map] at hrow
    obtain ⟨x, hx, rfl⟩ := hrow
    simpa using (hsh x hx).1
  have hwne : sel.map
      (fun wn => wn.1.map (fun layer => layer.map (fun x => x * (wn.2 : ℚ)))) ≠ [] := by
    simpa using hne
  simp only [aggregate, weightedMeanList]
  rw [pyZipStar_uniform _ _ hwne hwlen, List.map_map]
  refine List.map_congr_left ?_
  intro j hj
  simp only [List.mem_range] at hj
  simp only [Function.comp_apply, List.map_map]
  have hrows : (sel.map ((fun row => row.getD j default) ∘
      (fun wn => wn.1.map (fun layer => layer.map (fun x => x * (wn.2 : ℚ)))))) =
      sel.map (fun x => (x.1.getD j []).map (fun v => v * (x.2 : ℚ))) := by
    refine List.map_congr_left ?_
    intro x hx
    exact getD_map_of_lt _ _ j [] default (by rw [(hsh x hx).1]; exact hj)
  rw [hrows]
  have hrlen : ∀ r ∈ sel.map (fun x => (x.1.getD j []).map (fun v => v * (x.2 : ℚ))),
      r.length = ((sel.headD ([], 0)).1.getD j []).length := by
    intro r hr
    simp only [List.mem_map] at hr
    obtain ⟨x, hx, rfl⟩ := hr
    simpa using (hsh x hx).2 j hj
  rw [npAddReduce_uniform _ _ (by simpa using hne) hrlen, List.map_map]
  refine List.map_congr_left ?_
  intro t ht
  simp only [List.mem_range] at ht
  simp only [Function.comp_apply, List.map_map]
  congr 1
  refine congrArg List.sum ?_
  refine List.map_congr_left ?_
  intro x hx
  exact getD_map_of_lt _ _ t 0 0 (by rw [(hsh x hx).2 j hj]; exact ht)

theorem argsortKey_perm (s : List ℚ) : (argsortKey s).Perm (List.range s.length) :=
  List.perm_insertionSort _ _

theorem argsortKey_length (s : List ℚ) : (argsortKey s).length = s.length := by
  simpa using (argsortKey_perm s).length_eq

theorem argsortKey_nodup (s : List ℚ) : (argsortKey s).Nodup :=
  ((argsortKey_perm s).nodup_iff).mpr (by exact List.nodup_range _)

theorem mem_argsortKey {s : List ℚ} {i : ℕ} : i ∈ argsortKey s ↔ i < s.length := by
  rw [(argsortKey_perm s).mem_iff, List.mem_range]

theorem argsortKey_sorted (s : List ℚ) :
    List.Sorted (fun i j => s.getD i 0 ≤ s.getD j 0) (argsortKey s) := by
  haveI h1 : IsTotal ℕ (fun i j => s.getD i 0 ≤ s.getD j 0) :=
    ⟨fun a x => le_total _ _⟩
  haveI h2 : IsTrans ℕ (fun i j => s.getD i 0 ≤ s.getD j 0) :=
    ⟨fun a x y hab hbc => le_trans hab hbc⟩
  exact List.sorted_insertionSort _ _

theorem pySliceTo_is_take {α : Type} (l : List α) (k : ℤ) :
    ∃ u, pySliceTo l k = l.take u := by
  rw [pySliceTo]
  split
  · exact ⟨k.toNat, rfl⟩
  · exact ⟨l.length - (-k).toNat, rfl⟩

theorem dncSampled_length (g : ℕ → ℕ) (flat : List (List ℚ)) (b : ℤ) (k : ℕ) :
    (dncSampled g flat b k).length = flat.length := by
  rw [dncSampled]
  split <;> simp

theorem dncScores_length (g : ℕ → ℕ) (flat : List (List ℚ)) (b : ℤ)
    (svd0 : List (List ℚ) → List ℚ) (k : ℕ) :
    (dncScores g flat b svd0 k).length = flat.length := by
  simp [dncScores, dncSampled_length]

theorem dncFlat_length (results : List ((List (List ℚ)) × ℕ)) :
    (dncFlat results).length = results.length := by
  simp [dncFlat]

theorem mem_dncKept_lt (g : ℕ → ℕ) (results : List ((List (List ℚ)) × ℕ)) (c : ℚ)
    (b : ℤ) (m : ℕ) (svd0 : List (List ℚ) → List ℚ) (k : ℕ) {i : ℕ}
    (hi : i ∈ dncKept g results c b m svd0 k) : i < results.length := by
  simp only [dncKept, List.mem_toFinset] at hi
  obtain ⟨u, hu⟩ := pySliceTo_is_take
    (argsortKey (dncScores g (dncFlat results) b svd0 k))
    (dncToKeep results.length c m)
  rw [hu] at hi
  have : i ∈ argsortKey (dncScores g (dncFlat results) b svd0 k) :=
    (List.take_sublist _ _).mem hi
  rw [mem_argsortKey, dncScores_length, dncFlat_length] at this
  exact this

theorem dncKept_subset_range (g : ℕ → ℕ) (results : List ((List (List ℚ)) × ℕ))
    (c : ℚ) (b : ℤ) (m : ℕ) (svd0 : List (List ℚ) → List ℚ) (k : ℕ) :
    dncKept g results c b m svd0 k ⊆ Finset.range results.length := by
  intro i hi
  exact Finset.mem_range.mpr (mem_dncKept_lt g results c b m svd0 k hi)

theorem dncToKeep_le (n : ℕ) (c : ℚ) (m : ℕ) (hc : 0 ≤ c) :
    dncToKeep n c m ≤ (n : ℤ) := by
  rw [dncToKeep, pyInt]
  split
  · calc ⌊(n : ℚ) - c * (m : ℚ)⌋ ≤ ⌊(n : ℚ)⌋ := by
          refine Int.floor_le_floor ?_
          have : 0 ≤ c * (m : ℚ) := mul_nonneg hc (by positivity)
          linarith
      _ = (n : ℤ) := Int.floor_natCast n
  · have h1 : (0 : ℚ) ≤ -((n : ℚ) - c * (m : ℚ)) := by
      rename_i hneg
      push_neg at hneg
      linarith
    have h2 : (0 : ℤ) ≤ ⌊-((n : ℚ) - c * (m : ℚ))⌋ := Int.floor_nonneg.mpr h1
    omega

theorem dncKept_card (g : ℕ → ℕ) (results : List ((List (List ℚ)) × ℕ)) (c : ℚ)
    (b : ℤ) (m : ℕ) (svd0 : List (List ℚ) → List ℚ) (k : ℕ)
    (h0 : 0 ≤ dncToKeep results.length c m) (hc : 0 ≤ c) :
    (dncKept g results c b m svd0 k).card = (dncToKeep results.length c m).toNat := by
  have hle : dncToKeep results.length c m ≤ (results.length : ℤ) :=
    dncToKeep_le results.length c m hc
  rw [dncKept]
  have hslice : pySliceTo (argsortKey (dncScores g (dncFlat results) b svd0 k))
      (dncToKeep results.length c m) =
      (argsortKey (dncScores g (dncFlat results) b svd0 k)).take
        (dncToKeep results.length c m).toNat := by
    rw [pySliceTo, if_pos h0]
  rw [hslice, List.toFinset_card_of_nodup
    ((List.take_sublist _ _).nodup (argsortKey_nodup _))]
  rw [List.length_take, argsortKey_length, dncScores_length, dncFlat_length]
  omega

theorem dncKept_smallest (g : ℕ → ℕ) (results : List ((List (List ℚ)) × ℕ)) (c : ℚ)
    (b : ℤ) (m : ℕ) (svd0 : List (List ℚ) → List ℚ) (k : ℕ) (i j : ℕ)
    (hi : i ∈ dncKept g results c b m svd0 k) (hj : j < results.length)
    (hjn : j ∉ dncKept g results c b m svd0 k) :
    (dncScores g (dncFlat results) b svd0 k).getD i 0 ≤
      (dncScores g (dncFlat results) b svd0 k).getD j 0 := by
  obtain ⟨u, hu⟩ := pySliceTo_is_take
    (argsortKey (dncScores g (dncFlat results) b svd0 k))
    (dncToKeep results.length c m)
  simp only [dncKept, List.mem_toFinset, hu] at hi hjn
  have hjmem : j ∈ argsortKey (dncScores g (dncFlat results) b svd0 k) := by
    rw [mem_argsortKey, dncScores_length, dncFlat_length]
    exact hj
  have hsorted := argsortKey_sorted (dncScores g (dncFlat results) b svd0 k)
  rw [List.Sorted, ← List.take_append_drop u
    (argsortKey (dncScores g (dncFlat results) b svd0 k)),
    List.pairwise_append] at hsorted
  have hjdrop : j ∈ (argsortKey (dncScores g (dncFlat results) b svd0 k)).drop u := by
    rw [← List.take_append_drop u
      (argsortKey (dncScores g (dncFlat results) b svd0 k)),
      List.mem_append] at hjmem
    rcases hjmem with h | h
    · exact absurd h hjn
    · exact h
  exact hsorted.2.2 i hi j hjdrop

theorem foldl_inter_subset (s : Finset ℕ) (ss : List (Finset ℕ)) :
    ss.foldl (fun a t => a ∩ t) s ⊆ s := by
  induction ss generalizing s with
  | nil => simp
  | cons t ts ih =>
    intro x hx
    rw [List.foldl_cons] at hx
    exact (Finset.mem_inter.mp (ih (s ∩ t) hx)).1

theorem foldl_inter_const (s : Finset ℕ) (ss : List (Finset ℕ))
    (h : ∀ t ∈ ss, t = s) : ss.foldl (fun a t => a ∩ t) s = s := by
  induction ss with
  | nil => rfl
  | cons t ts ih =>
    rw [List.foldl_cons, h t (by simp), Finset.inter_self]
    exact ih (fun x hx => h x (by simp [hx]))

theorem dncIntersection_subset_range (g : ℕ → ℕ)
    (results : List ((List (List ℚ)) × ℕ)) (c : ℚ) (b : ℤ) (niters : ℕ) (m : ℕ)
    (svd0 : List (List ℚ) → List ℚ) (I : Finset ℕ)
    (h : dncIntersection g results c b niters m svd0 = some I) :
    I ⊆ Finset.range results.length := by
  rw [dncIntersection] at h
  cases hks : dncKeptSets g results c b niters m svd0 with
  | nil => rw [hks] at h; exact absurd h (by simp)
  | cons s ss =>
    rw [hks] at h
    have hI : I = ss.foldl (fun a t => a ∩ t) s := by
      simpa using h.symm
    have hs : s ∈ dncKeptSets g results c b niters m svd0 := by
      rw [hks]; simp
    simp only [dncKeptSets, List.mem_map] at hs
    obtain ⟨k, _, hk⟩ := hs
    rw [hI]
    refine subset_trans (foldl_inter_subset s ss) ?_
    rw [← hk]
    exact dncKept_subset_range g results c b m svd0 k

theorem sum_map_sort (I : Finset ℕ) (f : ℕ → ℚ) :
    ((I.sort (fun a x => a ≤ x)).map f).sum = I.sum f := by
  have hperm := (Finset.sort_perm_toList (fun a x => a ≤ x) I).map f
  rw [hperm.sum_eq, Finset.sum_to_list]

theorem getD_mem_of_lt {α : Type} (l : List α) (i : ℕ) (d : α) (h : i < l.length) :
    l.getD i d ∈ l := by
  rw [List.getD_eq_getElem?_getD, List.getElem?_eq_getElem h]
  exact List.getElem_mem h

/-- Applying the flwr weighted mean to the survivors selected from a
shape-uniform round (in ascending index order) yields the specified
weighted-mean formula over the surviving index set. -/
theorem aggregate_sel_spec (results : List ((List (List ℚ)) × ℕ)) (I : Finset ℕ)
    (hne : results ≠ []) (hI : I.Nonempty) (hIr : I ⊆ Finset.range results.length)
    (hsh : UniformShape results) :
    aggregate ((I.sort (fun a x => a ≤ x)).map (fun i => results.getD i ([], 0))) =
      weightedMeanSpec results I := by
  set sel := (I.sort (fun a x => a ≤ x)).map (fun i => results.getD i ([], 0))
    with hsel
  have hmem : ∀ x ∈ sel, x ∈ results := by
    intro x hx
    rw [hsel] at hx
    simp only [List.mem_map] at hx
    obtain ⟨i, hi, rfl⟩ := hx
    rw [Finset.mem_sort] at hi
    have hilt : i < results.length := Finset.mem_range.mp (hIr hi)
    exact getD_mem_of_lt results i ([], 0) hilt
  have hselne : sel ≠ [] := by
    have hlen : sel.length = I.card := by
      rw [hsel, List.length_map, Finset.length_sort]
    intro hcon
    rw [hcon] at hlen
    simp only [List.length_nil] at hlen
    exact hI.ne_empty (Finset.card_eq_zero.mp hlen.symm)
  have hheadmem : sel.headD ([], 0) ∈ sel := by
    cases h : sel with
    | nil => exact absurd h hselne
    | cons a l => simp [h]
  have hhead := hsh _ (hmem _ hheadmem)
  have hshSel : ∀ x ∈ sel, x.1.length = (sel.headD ([], 0)).1.length ∧
      ∀ j < (sel.headD ([], 0)).1.length,
        (x.1.getD j []).length = ((sel.headD ([], 0)).1.getD j []).length := by
    intro x hx
    have hxr := hsh x (hmem x hx)
    refine ⟨by rw [hxr.1, hhead.1], ?_⟩
    intro j hj
    have hjR : j < (results.headD ([], 0)).1.length := by rw [← hhead.1]; exact hj
    rw [hxr.2 j hjR, hhead.2 j hjR]
  rw [aggregate_uniform sel hselne hshSel]
  simp only [weightedMeanList, weightedMeanSpec]
  have hW : (((sel.map Prod.snd).sum : ℕ) : ℚ) =
      I.sum (fun i => ((results.getD i ([], 0)).2 : ℚ)) := by
    rw [hsel, List.map_map, Nat.cast_list_sum, List.map_map]
    exact sum_map_sort I _
  rw [hW, hhead.1]
  refine List.map_congr_left ?_
  intro j hj
  simp only [List.mem_range] at hj
  rw [hhead.2 j hj]
  refine List.map_congr_left ?_
  intro t ht
  simp only [List.mem_range] at ht
  congr 1
  rw [hsel, List.map_map, sum_map_sort I _]
  refine Finset.sum_congr rfl ?_
  intro i _
  simp only [Function.comp_apply]
  exact mul_comm _ _

theorem toFinset_range_eq (n : ℕ) : (List.range n).toFinset = Finset.range n := by
  ext x
  simp

theorem pyInt_natCast (n : ℕ) : pyInt ((n : ℚ)) = (n : ℤ) := by
  rw [pyInt, if_pos (by positivity)]
  exact Int.floor_natCast n

theorem dncToKeep_zero_mal (n : ℕ) (c : ℚ) : dncToKeep n c 0 = (n : ℤ) := by
  rw [dncToKeep]
  norm_num [pyInt_natCast]

theorem dncKept_full (g : ℕ → ℕ) (results : List ((List (List ℚ)) × ℕ)) (c : ℚ)
    (b : ℤ) (m : ℕ) (svd0 : List (List ℚ) → List ℚ) (k : ℕ)
    (h : dncToKeep results.length c m = (results.length : ℤ)) :
    dncKept g results c b m svd0 k = Finset.range results.length := by
  rw [dncKept]
  have hlen : (argsortKey (dncScores g (dncFlat results) b svd0 k)).length =
      results.length := by
    rw [argsortKey_length, dncScores_length, dncFlat_length]
  rw [h, pySliceTo, if_pos (by positivity), Int.toNat_natCast, ← hlen,
    List.take_length]
  rw [List.toFinset_eq_of_perm _ _ (argsortKey_perm _), toFinset_range_eq,
    dncScores_length, dncFlat_length, hlen]

theorem map_const_replicate {α β : Type} (l : List α) (f : α → β) (v : β)
    (h : ∀ x ∈ l, f x = v) : l.map f = List.replicate l.length v := by
  induction l with
  | nil => rfl
  | cons a l ih =>
    simp only [List.map_cons, List.length_cons, List.replicate_succ]
    rw [h a (by simp), ih (fun x hx => h x (by simp [hx]))]

theorem dncSampled_replicate (g : ℕ → ℕ) (n : ℕ) (fp : List ℚ) (b : ℤ) (k : ℕ) :
    ∃ sp, dncSampled g (List.replicate n fp) b k = List.replicate n sp := by
  rw [dncSampled]
  split
  · exact ⟨_, List.map_replicate⟩
  · exact ⟨fp, rfl⟩

theorem dncScores_replicate (g : ℕ → ℕ) (n : ℕ) (fp : List ℚ) (b : ℤ)
    (svd0 : List (List ℚ) → List ℚ) (k : ℕ) :
    ∃ q, dncScores g (List.replicate n fp) b svd0 k = List.replicate n q := by
  obtain ⟨sp, hsp⟩ := dncSampled_replicate g n fp b k
  rw [dncScores, hsp]
  exact ⟨_, List.map_replicate⟩

theorem getD_replicate_of_lt (n : ℕ) (q : ℚ) (i : ℕ) (h : i < n) :
    (List.replicate n q).getD i 0 = q := by
  rw [List.getD_eq_getElem?_getD,
    List.getElem?_eq_getElem (by simpa using h), List.getElem_replicate]
  rfl

theorem argsortKey_replicate (n : ℕ) (q : ℚ) :
    argsortKey (List.replicate n q) = List.range n := by
  rw [argsortKey, List.length_replicate]
  refine List.Sorted.insertionSort_eq ?_
  rw [List.Sorted, List.pairwise_iff_getElem]
  intro i j hi hj hij
  simp only [List.length_range] at hi hj
  simp only [List.getElem_range]
  rw [getD_replicate_of_lt n q i hi, getD_replicate_of_lt n q j hj]

theorem randints_congr (g1 g2 : ℕ → ℕ) (start bound size : ℕ)
    (h : ∀ i < start + size, g1 i = g2 i) :
    randints g1 start bound size = randints g2 start bound size := by
  rw [randints, randints]
  refine List.map_congr_left ?_
  intro j hj
  simp only [List.mem_range] at hj
  rw [h (start + j) (by omega)]

theorem dncSampled_congr (g1 g2 : ℕ → ℕ) (flat : List (List ℚ)) (b : ℤ)
    (k niters : ℕ) (hk : k < niters) (h : ∀ i < niters * b.toNat, g1 i = g2 i) :
    dncSampled g1 flat b k = dncSampled g2 flat b k := by
  rw [dncSampled, dncSampled]
  by_cases hcond : 0 < b ∧ b.toNat < (flat.headD []).length
  · rw [if_pos hcond, if_pos hcond]
    have hidx : dncSampledIdxs g1 (flat.headD []).length b k =
        dncSampledIdxs g2 (flat.headD []).length b k := by
      rw [dncSampledIdxs, dncSampledIdxs]
      refine randints_congr g1 g2 _ _ _ ?_
      intro i hi
      refine h i (lt_of_lt_of_le hi ?_)
      calc k * b.toNat + b.toNat = (k + 1) * b.toNat := by ring
        _ ≤ niters * b.toNat := Nat.mul_le_mul_right _ hk
    rw [hidx]
  · rw [if_neg hcond, if_neg hcond]

theorem dncScores_congr (g1 g2 : ℕ → ℕ) (flat : List (List ℚ)) (b : ℤ)
    (svd0 : List (List ℚ) → List ℚ) (k niters : ℕ) (hk : k < niters)
    (h : ∀ i < niters * b.toNat, g1 i = g2 i) :
    dncScores g1 flat b svd0 k = dncScores g2 flat b svd0 k := by
  rw [dncScores, dncScores, dncSampled_congr g1 g2 flat b k niters hk h]

theorem dncKept_congr (g1 g2 : ℕ → ℕ) (results : List ((List (List ℚ)) × ℕ))
    (c : ℚ) (b : ℤ) (m : ℕ) (svd0 : List (List ℚ) → List ℚ) (k niters : ℕ)
    (hk : k < niters) (h : ∀ i < niters * b.toNat, g1 i = g2 i) :
    dncKept g1 results c b m svd0 k = dncKept g2 results c b m svd0 k := by
  rw [dncKept, dncKept,
    dncScores_congr g1 g2 (dncFlat results) b svd0 k niters hk h]

theorem dncKeptSets_congr (g1 g2 : ℕ → ℕ) (results : List ((List (List ℚ)) × ℕ))
    (c : ℚ) (b : ℤ) (niters : ℕ) (m : ℕ) (svd0 : List (List ℚ) → List ℚ)
    (h : ∀ i < niters * b.toNat, g1 i = g2 i) :
    dncKeptSets g1 results c b niters m svd0 =
      dncKeptSets g2 results c b niters m svd0 := by
  rw [dncKeptSets, dncKeptSets]
  refine List.map_congr_left ?_
  intro k hk
  exact dncKept_congr g1 g2 results c b m svd0 k niters (List.mem_range.mp hk) h

theorem dncIntersection_congr (g1 g2 : ℕ → ℕ)
    (results : List ((List (List ℚ)) × ℕ)) (c : ℚ) (b : ℤ) (niters : ℕ) (m : ℕ)
    (svd0 : List (List ℚ) → List ℚ) (h : ∀ i < niters * b.toNat, g1 i = g2 i) :
    dncIntersection g1 results c b niters m svd0 =
      dncIntersection g2 results c b niters m svd0 := by
  rw [dncIntersection, dncIntersection,
    dncKeptSets_congr g1 g2 results c b niters m svd0 h]

theorem aggregate_dnc_congr (g1 g2 : ℕ → ℕ)
    (results : List ((List (List ℚ)) × ℕ)) (c : ℚ) (b : ℤ) (niters : ℕ) (m : ℕ)
    (svd0 : List (List ℚ) → List ℚ) (h : ∀ i < niters * b.toNat, g1 i = g2 i) :
    aggregate_dnc g1 results c b niters m svd0 =
      aggregate_dnc g2 results c b niters m svd0 := by
  rw [aggregate_dnc, aggregate_dnc,
    dncIntersection_congr g1 g2 results c b niters m svd0 h]

theorem dncIntersection_eq (g : ℕ → ℕ) (results : List ((List (List ℚ)) × ℕ))
    (c : ℚ) (b : ℤ) (niters : ℕ) (m : ℕ) (svd0 : List (List ℚ) → List ℚ)
    (s : Finset ℕ) (ss : List (Finset ℕ))
    (h : dncKeptSets g results c b niters m svd0 = s :: ss) :
    dncIntersection g results c b niters m svd0 =
      some (ss.foldl (fun a t => a ∩ t) s) := by
  rw [dncIntersection, h]

theorem aggregate_dnc_some (g : ℕ → ℕ) (results : List ((List (List ℚ)) × ℕ))
    (c : ℚ) (b : ℤ) (niters : ℕ) (m : ℕ) (svd0 : List (List ℚ) → List ℚ)
    (I : Finset ℕ) (hne : results ≠ [])
    (hI : dncIntersection g results c b niters m svd0 = some I) :
    aggregate_dnc g results c b niters m svd0 =
      some (aggregate ((I.sort (fun a x => a ≤ x)).map
        (fun i => results.getD i ([], 0)))) := by
  rw [aggregate_dnc, if_neg (by simpa [List.isEmpty_iff] using hne), hI]

theorem pos_sum_of_one_le (l : List ℕ) (hne : l ≠ []) (h : ∀ x ∈ l, 1 ≤ x) :
    0 < l.sum := by
  cases l with
  | nil => exact absurd rfl hne
  | cons a t =>
    have ha := h a (by simp)
    simp only [List.sum_cons]
    omega

/-- The flwr weighted mean of clients that all submitted the same
parameters `p`, with positive total weight, is `p` itself. -/
theorem aggregate_const (sel : List ((List (List ℚ)) × ℕ)) (p : List (List ℚ))
    (hne : sel ≠ []) (hp : ∀ x ∈ sel, x.1 = p)
    (hw : 0 < (sel.map Prod.snd).sum) : aggregate sel = p := by
  have hheadmem : sel.headD ([], 0) ∈ sel := by
    cases h : sel with
    | nil => exact absurd h hne
    | cons a l => simp [h]
  have hhead : (sel.headD ([], 0)).1 = p := hp _ hheadmem
  have hsh : ∀ x ∈ sel, x.1.length = (sel.headD ([], 0)).1.length ∧
      ∀ j < (sel.headD ([], 0)).1.length,
        (x.1.getD j []).length = ((sel.headD ([], 0)).1.getD j []).length := by
    intro x hx
    rw [hp x hx, hhead]
    exact ⟨rfl, fun j hj => rfl⟩
  rw [aggregate_uniform sel hne hsh]
  simp only [weightedMeanList, hhead]
  have hWpos : (0 : ℚ) < (((sel.map Prod.snd).sum : ℕ) : ℚ) := by
    exact_mod_cast hw
  have hentry : ∀ j < p.length, ∀ t < (p.getD j []).length,
      ((sel.map (fun x => ((x.1.getD j []).getD t 0) * (x.2 : ℚ))).sum) /
        (((sel.map Prod.snd).sum : ℕ) : ℚ) = (p.getD j []).getD t 0 := by
    intro j _ t _
    have hsum : (sel.map (fun x => ((x.1.getD j []).getD t 0) * (x.2 : ℚ))).sum =
        ((p.getD j []).getD t 0) * (((sel.map Prod.snd).sum : ℕ) : ℚ) := by
      rw [Nat.cast_list_sum, List.map_map, ← List.sum_map_mul_left]
      refine congrArg List.sum ?_
      refine List.map_congr_left ?_
      intro x hx
      rw [hp x hx]
      rfl
    rw [hsum, mul_div_assoc, div_self (ne_of_gt hWpos), mul_one]
  calc (List.range p.length).map (fun j =>
        (List.range ((p.getD j []).length)).map (fun t =>
          ((sel.map (fun x => ((x.1.getD j []).getD t 0) * (x.2 : ℚ))).sum) /
            (((sel.map Prod.snd).sum : ℕ) : ℚ)))
      = (List.range p.length).map (fun j => p.getD j []) := by
        refine List.map_congr_left ?_
        intro j hj
        simp only [List.mem_range] at hj
        calc (List.range ((p.getD j []).length)).map (fun t =>
              ((sel.map (fun x => ((x.1.getD j []).getD t 0) * (x.2 : ℚ))).sum) /
                (((sel.map Prod.snd).sum : ℕ) : ℚ))
            = (List.range ((p.getD j []).length)).map (fun t => (p.getD j []).getD t 0) := by
              refine List.map_congr_left ?_
              intro t ht
              simp only [List.mem_range] at ht
              exact hentry j hj t ht
          _ = p.getD j [] := getD_range_map 0 (p.getD j [])
    _ = p := getD_range_map [] p

/-! Claim theorems -/

/-- Claim C10: `fit_config` returns the configuration with `epochs = 1`
and `batch_size = 32` for every server round, hence is independent of
its `server_round` argument. -/
theorem claim_C10 :
    (∀ server_round : ℕ,
      fit_config server_round = { epochs := 1, batch_size := 32 }) ∧
    (∀ r1 r2 : ℕ, fit_config r1 = fit_config r2) :=
  ⟨fun _ => rfl, fun _ _ => rfl⟩

/-- Claim C8: `main` skips (returns without starting a simulation or
writing results) exactly when the strategy is `bulyan` with
`num_malicious > 20`, or the attack is neither `gaussian` nor `na` with
`num_malicious = 0`. -/
theorem claim_C8 (cfg : MainConfig) :
    mainOutcome cfg = MainOutcome.skipped ↔
      ((cfg.strategyName = "bulyan" ∧ 20 < cfg.numMalicious) ∨
        (cfg.attackFn ≠ "gaussian" ∧ cfg.numMalicious = 0 ∧ cfg.attackFn ≠ "na")) := by
  rw [mainOutcome]
  split_ifs with h1 h2 h3 h4 h5 <;> simp_all

/-- Claim C7 counterexample: with an unsupported strategy name, an
attack name outside gaussian/na and `num_malicious = 0`, `main` skips
(returns early) instead of failing with a configuration error, so the
claim as stated is false. -/
theorem claim_C7_counterexample :
    mainOutcome ⟨"notastrategy", "lie", 0, "mnist"⟩ = MainOutcome.skipped ∧
    (mainOutcome ⟨"notastrategy", "lie", 0, "mnist"⟩).isConfigError = false ∧
    "notastrategy" ∉ supportedStrategies := by
  refine ⟨?_, ?_, ?_⟩ <;> decide

/-- Claim C7 (amended): provided neither skip guard fires, a
configuration whose strategy name or attack name is unsupported makes
`main` fail with an uncaught configuration error before the simulation
starts. -/
theorem claim_C7_amended (cfg : MainConfig)
    (hg1 : ¬(cfg.strategyName = "bulyan" ∧ 20 < cfg.numMalicious))
    (hg2 : ¬(cfg.attackFn ≠ "gaussian" ∧ cfg.numMalicious = 0 ∧ cfg.attackFn ≠ "na"))
    (hbad : cfg.strategyName ∉ supportedStrategies ∨
      cfg.attackFn ∉ supportedAttacks) :
    (mainOutcome cfg).isConfigError = true := by
  rw [mainOutcome, if_neg hg1, if_neg hg2]
  by_cases hd : cfg.dataset ∉ supportedDatasets
  · rw [if_pos hd]; rfl
  · rw [if_neg hd]
    by_cases hs : cfg.strategyName ∉ supportedStrategies
    · rw [if_pos hs]; rfl
    · rw [if_neg hs]
      have ha : cfg.attackFn ∉ supportedAttacks := by
        rcases hbad with h | h
        · exact absurd h hs
        · exact h
      rw [if_pos ha]; rfl

theorem claim_C7_witness :
    (¬(("foo" : String) = "bulyan" ∧ 20 < (5 : ℤ))) ∧
    (¬(("gaussian" : String) ≠ "gaussian" ∧ (5 : ℤ) = 0 ∧
      ("gaussian" : String) ≠ "na")) ∧
    ("foo" : String) ∉ supportedStrategies ∧
    (mainOutcome ⟨"foo", "gaussian", 5, "mnist"⟩).isConfigError = true :=
  ⟨by decide, by decide, by decide,
    claim_C7_amended ⟨"foo", "gaussian", 5, "mnist"⟩ (by decide) (by decide)
      (Or.inl (by decide))⟩

/-- Claim C9: when `b > 0` and the flattened length exceeds `b`, the
sampled index sequence of an iteration has exactly `b` entries, each a
valid coordinate, the same sequence is applied to the flattened update of
every client, and sampling is with replacement (a stream exists
under which the sequence repeats a coordinate). -/
theorem claim_C9 (g : ℕ → ℕ) (flat : List (List ℚ)) (b : ℤ) (k : ℕ)
    (hb : 0 < b) (hlen : b.toNat < (flat.headD []).length) :
    dncSampled g flat b k =
      flat.map (fun fp => (dncSampledIdxs g (flat.headD []).length b k).map
        (fun j => fp.getD j 0)) ∧
    (dncSampledIdxs g (flat.headD []).length b k).length = b.toNat ∧
    (∀ j ∈ dncSampledIdxs g (flat.headD []).length b k,
      j < (flat.headD []).length) ∧
    (2 ≤ b.toNat → ∃ gdup : ℕ → ℕ,
      ¬(dncSampledIdxs gdup (flat.headD []).length b k).Nodup) := by
  refine ⟨?_, ?_, ?_, ?_⟩
  · simp only [dncSampled]
    rw [if_pos ⟨hb, hlen⟩]
  · simp [dncSampledIdxs, randints]
  · intro j hj
    simp only [dncSampledIdxs, randints, List.mem_map] at hj
    obtain ⟨i, _, rfl⟩ := hj
    exact Nat.mod_lt _ (by omega)
  · intro h2
    refine ⟨fun _ => 0, ?_⟩
    have hconst : dncSampledIdxs (fun _ => 0) (flat.headD []).length b k =
        List.replicate b.toNat 0 := by
      rw [dncSampledIdxs, randints]
      have := map_const_replicate (List.range b.toNat)
        (fun j => (fun _ => 0 : ℕ → ℕ) (k * b.toNat + j) % (flat.headD []).length) 0
        (fun x _ => Nat.zero_mod _)
      rw [this, List.length_range]
    rw [hconst, List.nodup_replicate]
    omega

theorem claim_C9_witness :
    (0 : ℤ) < 2 ∧ (2 : ℤ).toNat < (([[1, 2, 3], [4, 5, 6]].headD []).length) ∧
    (dncSampled (fun n => n) [[1, 2, 3], [4, 5, 6]] 2 0 =
      [[1, 2, 3], [4, 5, 6]].map
        (fun fp => (dncSampledIdxs (fun n => n)
          (([[1, 2, 3], [4, 5, 6]].headD []).length) 2 0).map
            (fun j => fp.getD j 0)) ∧
    (dncSampledIdxs (fun n => n) (([[1, 2, 3], [4, 5, 6]].headD []).length) 2
      0).length = (2 : ℤ).toNat ∧
    (∀ j ∈ dncSampledIdxs (fun n => n)
      (([[1, 2, 3], [4, 5, 6]].headD []).length) 2 0,
        j < (([[1, 2, 3], [4, 5, 6]].headD []).length)) ∧
    (2 ≤ (2 : ℤ).toNat → ∃ gdup : ℕ → ℕ,
      ¬(dncSampledIdxs gdup (([[1, 2, 3], [4, 5, 6]].headD []).length) 2
        0).Nodup)) :=
  ⟨by decide, by decide,
    claim_C9 (fun n => n) [[1, 2, 3], [4, 5, 6]] 2 0 (by decide) (by decide)⟩

/-- Claim C1 counterexample: a call in which the intersection of the
per-iteration kept sets is empty (two clients, `c = 1`,
`num_malicious = 2`, so `to_keep = 0`), yet `aggregate_dnc` raises no
`InsufficientClients` error — it returns normally with the aggregate of
zero clients, the empty parameter list. -/
theorem claim_C1_counterexample :
    dncIntersection (fun _ => 0) [([[1]], 1), ([[2]], 1)] 1 0 1 2 svdUnit1 =
      some ∅ ∧
    aggregate_dnc (fun _ => 0) [([[1]], 1), ([[2]], 1)] 1 0 1 2 svdUnit1 =
      some [] := by
  constructor
  · norm_num [dncIntersection, dncKeptSets, dncKept, dncScores, dncSampled,
      dncSampledIdxs, randints, dncModelC, dncMu, dncFlat, flatten_params, dot,
      pyZipStar, argsortKey, dncToKeep, pyInt, pySliceTo, List.insertionSort,
      List.orderedInsert, svdUnit1]
  · norm_num [aggregate_dnc, dncIntersection, dncKeptSets, dncKept, dncScores,
      dncSampled, dncSampledIdxs, randints, dncModelC, dncMu, dncFlat,
      flatten_params, dot, pyZipStar, argsortKey, dncToKeep, pyInt, pySliceTo,
      List.insertionSort, List.orderedInsert, svdUnit1, aggregate, npAddReduce]

/-- Claim C1 (amended): when the intersection of the per-iteration kept
sets is empty, `aggregate_dnc` does not fail: it silently returns the
flwr aggregate of an empty survivor list, which is the empty parameter
list. -/
theorem claim_C1_amended (g : ℕ → ℕ) (results : List ((List (List ℚ)) × ℕ))
    (c : ℚ) (b : ℤ) (niters : ℕ) (m : ℕ) (svd0 : List (List ℚ) → List ℚ)
    (hne : results ≠ [])
    (hI : dncIntersection g results c b niters m svd0 = some ∅) :
    aggregate_dnc g results c b niters m svd0 = some [] := by
  rw [aggregate_dnc_some g results c b niters m svd0 ∅ hne hI]
  simp [aggregate, pyZipStar]

theorem claim_C1_witness :
    ([([[3]], 1), ([[5]], 1)] : List ((List (List ℚ)) × ℕ)) ≠ [] ∧
    dncIntersection (fun _ => 0) [([[3]], 1), ([[5]], 1)] 1 0 1 2 svdUnit1 =
      some ∅ ∧
    aggregate_dnc (fun _ => 0) [([[3]], 1), ([[5]], 1)] 1 0 1 2 svdUnit1 =
      some [] := by
  have hI : dncIntersection (fun _ => 0) [([[3]], 1), ([[5]], 1)] 1 0 1 2
      svdUnit1 = some ∅ := by
    norm_num [dncIntersection, dncKeptSets, dncKept, dncScores, dncSampled,
      dncSampledIdxs, randints, dncModelC, dncMu, dncFlat, flatten_params, dot,
      pyZipStar, argsortKey, dncToKeep, pyInt, pySliceTo, List.insertionSort,
      List.orderedInsert, svdUnit1]
  exact ⟨by simp, hI,
    claim_C1_amended (fun _ => 0) [([[3]], 1), ([[5]], 1)] 1 0 1 2 svdUnit1
      (by simp) hI⟩

/-- Claim C2: the source scores each client by the squared inner product
of the UNCENTERED (sampled) update with the leading right singular
vector, while the spec says the centered update.  On two one-parameter
clients with updates `[0]` and `[2]` the centered matrix is
`[[-1], [1]]`, whose leading right singular vector is `[1]` or `[-1]`;
under either sign the centered scores of the spec are `[1, 1]` but the code
computes `[0, 4]`. -/
theorem claim_C2_code_divergence :
    dncScores (fun _ => 0) [[0], [2]] 0 svdUnit1 0 = [0, 4] ∧
    dncScoresCentered (fun _ => 0) [[0], [2]] 0 svdUnit1 0 = [1, 1] ∧
    dncScores (fun _ => 0) [[0], [2]] 0 svdUnit1Neg 0 = [0, 4] ∧
    dncScoresCentered (fun _ => 0) [[0], [2]] 0 svdUnit1Neg 0 = [1, 1] ∧
    dncScores (fun _ => 0) [[0], [2]] 0 svdUnit1 0 ≠
      dncScoresCentered (fun _ => 0) [[0], [2]] 0 svdUnit1 0 := by
  refine ⟨?_, ?_, ?_, ?_, ?_⟩ <;>
    norm_num [dncScores, dncScoresCentered, dncSampled, dncSampledIdxs, randints,
      dncModelC, dncMu, dot, pyZipStar, svdUnit1, svdUnit1Neg, List.range_succ,
      List.range_zero, Function.comp]

/-- Claim C3 counterexample: two calls of `aggregate_dnc` on identical
caller-supplied inputs but different global-generator states produce
different kept-index intersections, so the randomness is drawn from the
process-wide global generator, not from a caller-supplied source. -/
theorem claim_C3_counterexample :
    dncIntersection (fun _ => 0)
      [([[0, 5]], 1), ([[1, 1]], 1), ([[5, 0]], 1)] 1 1 1 1 svdUnit1 =
        some {0, 1} ∧
    dncIntersection (fun _ => 1)
      [([[0, 5]], 1), ([[1, 1]], 1), ([[5, 0]], 1)] 1 1 1 1 svdUnit1 =
        some {1, 2} ∧
    dncIntersection (fun _ => 0)
      [([[0, 5]], 1), ([[1, 1]], 1), ([[5, 0]], 1)] 1 1 1 1 svdUnit1 ≠
    dncIntersection (fun _ => 1)
      [([[0, 5]], 1), ([[1, 1]], 1), ([[5, 0]], 1)] 1 1 1 1 svdUnit1 := by
  have h0 : dncIntersection (fun _ => 0)
      [([[0, 5]], 1), ([[1, 1]], 1), ([[5, 0]], 1)] 1 1 1 1 svdUnit1 =
        some {0, 1} := by
    norm_num [dncIntersection, dncKeptSets, dncKept, dncScores, dncSampled,
      dncSampledIdxs, randints, dncModelC, dncMu, dncFlat, flatten_params, dot,
      pyZipStar, argsortKey, dncToKeep, pyInt, pySliceTo, List.insertionSort,
      List.orderedInsert, svdUnit1]
    decide
  have h1 : dncIntersection (fun _ => 1)
      [([[0, 5]], 1), ([[1, 1]], 1), ([[5, 0]], 1)] 1 1 1 1 svdUnit1 =
        some {1, 2} := by
    norm_num [dncIntersection, dncKeptSets, dncKept, dncScores, dncSampled,
      dncSampledIdxs, randints, dncModelC, dncMu, dncFlat, flatten_params, dot,
      pyZipStar, argsortKey, dncToKeep, pyInt, pySliceTo, List.insertionSort,
      List.orderedInsert, svdUnit1]
    decide
  refine ⟨h0, h1, ?_⟩
  rw [h0, h1]
  decide

/-- Claim C3 (amended): the function `aggregate_dnc` reads the global generator only
on the first `niters·b` draws, so two runs on identical inputs whose
global-generator states agree on that prefix (in particular two runs
from the same seed) produce the same kept-index intersection and the
same aggregate. -/
theorem claim_C3_amended (g1 g2 : ℕ → ℕ) (results : List ((List (List ℚ)) × ℕ))
    (c : ℚ) (b : ℤ) (niters : ℕ) (m : ℕ) (svd0 : List (List ℚ) → List ℚ)
    (h : ∀ i < niters * b.toNat, g1 i = g2 i) :
    dncIntersection g1 results c b niters m svd0 =
      dncIntersection g2 results c b niters m svd0 ∧
    aggregate_dnc g1 results c b niters m svd0 =
      aggregate_dnc g2 results c b niters m svd0 :=
  ⟨dncIntersection_congr g1 g2 results c b niters m svd0 h,
    aggregate_dnc_congr g1 g2 results c b niters m svd0 h⟩

theorem claim_C3_witness :
    (∀ i < 2 * (1 : ℤ).toNat,
      (fun _ => 0 : ℕ → ℕ) i = (fun i => if i < 2 then 0 else 9 : ℕ → ℕ) i) ∧
    (dncIntersection (fun _ => 0)
        [([[0, 5]], 1), ([[1, 1]], 1), ([[5, 0]], 1)] 1 1 2 1 svdUnit1 =
      dncIntersection (fun i => if i < 2 then 0 else 9)
        [([[0, 5]], 1), ([[1, 1]], 1), ([[5, 0]], 1)] 1 1 2 1 svdUnit1 ∧
    aggregate_dnc (fun _ => 0)
        [([[0, 5]], 1), ([[1, 1]], 1), ([[5, 0]], 1)] 1 1 2 1 svdUnit1 =
      aggregate_dnc (fun i => if i < 2 then 0 else 9)
        [([[0, 5]], 1), ([[1, 1]], 1), ([[5, 0]], 1)] 1 1 2 1 svdUnit1) :=
  ⟨fun i hi => by simp only [if_pos (by omega : i < 2)],
    claim_C3_amended (fun _ => 0) (fun i => if i < 2 then 0 else 9)
      [([[0, 5]], 1), ([[1, 1]], 1), ([[5, 0]], 1)] 1 1 2 1 svdUnit1
      (fun i hi => by simp only [if_pos (by omega : i < 2)])⟩

/-- Claim C4 counterexample: with `num_clients = 2`, `c = 1`,
`num_malicious = 3` we get `to_keep = int(2 - 3) = -1`, and the Python
slice `[:-1]` keeps one index, not `-1` of them — the kept count does
not equal `int(num_clients - c*num_malicious)`. -/
theorem claim_C4_counterexample :
    dncToKeep 2 1 3 = -1 ∧
    (dncKept (fun _ => 0) [([[1]], 1), ([[2]], 1)] 1 0 3 svdUnit1 0).card = 1 ∧
    ((dncKept (fun _ => 0) [([[1]], 1), ([[2]], 1)] 1 0 3 svdUnit1 0).card : ℤ) ≠
      dncToKeep 2 1 3 := by
  have h1 : dncToKeep 2 1 3 = -1 := by norm_num [dncToKeep, pyInt]
  have h2 : (dncKept (fun _ => 0) [([[1]], 1), ([[2]], 1)] 1 0 3 svdUnit1 0).card
      = 1 := by
    norm_num [dncKept, dncScores, dncSampled, dncSampledIdxs, randints,
      dncModelC, dncMu, dncFlat, flatten_params, dot, pyZipStar, argsortKey,
      dncToKeep, pyInt, pySliceTo, List.insertionSort, List.orderedInsert,
      svdUnit1]
  refine ⟨h1, h2, ?_⟩
  rw [h1, h2]
  decide

/-- Claim C4 (amended): whenever `to_keep = int(num_clients -
c*num_malicious)` is non-negative (and `c ≥ 0`), every iteration keeps
exactly `to_keep` indices, all of whose scores are at most the score of
every unkept index; and when the intersection is non-empty, the result
is the num_examples-weighted mean of the surviving original updates
(under the uniform-shape invariant of the data model). -/
theorem claim_C4_amended (g : ℕ → ℕ) (results : List ((List (List ℚ)) × ℕ))
    (c : ℚ) (b : ℤ) (niters : ℕ) (m : ℕ) (svd0 : List (List ℚ) → List ℚ)
    (hne : results ≠ []) (hc : 0 ≤ c)
    (h0 : 0 ≤ dncToKeep results.length c m)
    (hsh : UniformShape results) :
    (∀ k < niters,
      (dncKept g results c b m svd0 k).card =
        (dncToKeep results.length c m).toNat ∧
      ∀ i ∈ dncKept g results c b m svd0 k, ∀ j < results.length,
        j ∉ dncKept g results c b m svd0 k →
          (dncScores g (dncFlat results) b svd0 k).getD i 0 ≤
            (dncScores g (dncFlat results) b svd0 k).getD j 0) ∧
    (∀ I, dncIntersection g results c b niters m svd0 = some I → I.Nonempty →
      aggregate_dnc g results c b niters m svd0 =
        some (weightedMeanSpec results I)) := by
  constructor
  · intro k _
    refine ⟨dncKept_card g results c b m svd0 k h0 hc, ?_⟩
    intro i hi j hj hjn
    exact dncKept_smallest g results c b m svd0 k i j hi hj hjn
  · intro I hI hInonempty
    rw [aggregate_dnc_some g results c b niters m svd0 I hne hI]
    exact congrArg some (aggregate_sel_spec results I hne hInonempty
      (dncIntersection_subset_range g results c b niters m svd0 I hI) hsh)

theorem claim_C4_witness :
    ([([[1]], 1), ([[2]], 1)] : List ((List (List ℚ)) × ℕ)) ≠ [] ∧
    (0 : ℚ) ≤ 1 / 2 ∧
    0 ≤ dncToKeep ([([[1]], 1), ([[2]], 1)] :
      List ((List (List ℚ)) × ℕ)).length (1 / 2) 1 ∧
    UniformShape [([[1]], 1), ([[2]], 1)] ∧
    aggregate_dnc (fun _ => 0) [([[1]], 1), ([[2]], 1)] (1 / 2) 0 1 1 svdUnit1 =
      some (weightedMeanSpec [([[1]], 1), ([[2]], 1)] {0}) := by
  have hI : dncIntersection (fun _ => 0) [([[1]], 1), ([[2]], 1)] (1 / 2) 0 1 1
      svdUnit1 = some {0} := by
    norm_num [dncIntersection, dncKeptSets, dncKept, dncScores, dncSampled,
      dncSampledIdxs, randints, dncModelC, dncMu, dncFlat, flatten_params, dot,
      pyZipStar, argsortKey, dncToKeep, pyInt, pySliceTo, List.insertionSort,
      List.orderedInsert, svdUnit1]
  refine ⟨by simp, by norm_num, by norm_num [dncToKeep, pyInt],
    by simp [UniformShape], ?_⟩
  exact (claim_C4_amended (fun _ => 0) [([[1]], 1), ([[2]], 1)] (1 / 2) 0 1 1
    svdUnit1 (by simp) (by norm_num) (by norm_num [dncToKeep, pyInt])
    (by simp [UniformShape])).2 {0} hI (by decide)

/-- Claim C5: with `num_malicious = 0` every iteration keeps all client
indices, and `aggregate_dnc` returns exactly the FedAvg
num_examples-weighted mean of all updates. -/
theorem claim_C5 (g : ℕ → ℕ) (results : List ((List (List ℚ)) × ℕ)) (c : ℚ)
    (b : ℤ) (niters : ℕ) (svd0 : List (List ℚ) → List ℚ)
    (hne : results ≠ []) (hniters : niters ≠ 0) :
    (∀ k < niters,
      dncKept g results c b 0 svd0 k = Finset.range results.length) ∧
    aggregate_dnc g results c b niters 0 svd0 = some (fedavg results) := by
  have hfull : ∀ k, dncKept g results c b 0 svd0 k =
      Finset.range results.length :=
    fun k => dncKept_full g results c b 0 svd0 k
      (dncToKeep_zero_mal results.length c)
  refine ⟨fun k _ => hfull k, ?_⟩
  obtain ⟨nit, rfl⟩ := Nat.exists_eq_succ_of_ne_zero hniters
  have hks : dncKeptSets g results c b (nit + 1) 0 svd0 =
      Finset.range results.length ::
        List.replicate nit (Finset.range results.length) := by
    rw [dncKeptSets, map_const_replicate _ _ _ (fun k _ => hfull k),
      List.length_range, List.replicate_succ]
  have hint : dncIntersection g results c b (nit + 1) 0 svd0 =
      some (Finset.range results.length) := by
    rw [dncIntersection_eq g results c b (nit + 1) 0 svd0 _ _ hks]
    exact congrArg some
      (foldl_inter_const _ _ (fun t ht => List.eq_of_mem_replicate ht))
  rw [aggregate_dnc_some g results c b (nit + 1) 0 svd0 _ hne hint]
  refine congrArg some ?_
  rw [fedavg]
  refine congrArg aggregate ?_
  rw [Finset.sort_range]
  exact getD_range_map ([], 0) results

theorem claim_C5_witness :
    ([([[1]], 1), ([[3]], 1)] : List ((List (List ℚ)) × ℕ)) ≠ [] ∧ (1 : ℕ) ≠ 0 ∧
    ((∀ k < 1, dncKept (fun _ => 0) [([[1]], 1), ([[3]], 1)] 1 0 0 svdUnit1 k =
      Finset.range ([([[1]], 1), ([[3]], 1)] :
        List ((List (List ℚ)) × ℕ)).length) ∧
    aggregate_dnc (fun _ => 0) [([[1]], 1), ([[3]], 1)] 1 0 1 0 svdUnit1 =
      some (fedavg [([[1]], 1), ([[3]], 1)])) :=
  ⟨by simp, by decide,
    claim_C5 (fun _ => 0) [([[1]], 1), ([[3]], 1)] 1 0 1 svdUnit1 (by simp)
      (by decide)⟩

/-- Claim C6 counterexample: two failure modes of the claim as stated.
With one client, `c = 1`, `num_malicious = 1` (`to_keep = 0`) every
iteration keeps nothing and `aggregate_dnc` returns the empty list, not
the common update; and with `num_examples = 0` the weighted mean divides
by a zero total and does not reproduce the common update either. -/
theorem claim_C6_counterexample :
    aggregate_dnc (fun _ => 0) [([[1]], 1)] 1 0 1 1 svdUnit1 = some [] ∧
    aggregate_dnc (fun _ => 0) [([[1]], 1)] 1 0 1 1 svdUnit1 ≠ some [[1]] ∧
    aggregate_dnc (fun _ => 0) [([[1]], 0)] 0 0 1 0 svdUnit1 = some [[0]] ∧
    aggregate_dnc (fun _ => 0) [([[1]], 0)] 0 0 1 0 svdUnit1 ≠ some [[1]] := by
  have h1 : aggregate_dnc (fun _ => 0) [([[1]], 1)] 1 0 1 1 svdUnit1 =
      some [] := by
    norm_num [aggregate_dnc, dncIntersection, dncKeptSets, dncKept, dncScores,
      dncSampled, dncSampledIdxs, randints, dncModelC, dncMu, dncFlat,
      flatten_params, dot, pyZipStar, argsortKey, dncToKeep, pyInt, pySliceTo,
      List.insertionSort, List.orderedInsert, svdUnit1, aggregate, npAddReduce]
  have h2 : aggregate_dnc (fun _ => 0) [([[1]], 0)] 0 0 1 0 svdUnit1 =
      some [[0]] := by
    norm_num [aggregate_dnc, dncIntersection, dncKeptSets, dncKept, dncScores,
      dncSampled, dncSampledIdxs, randints, dncModelC, dncMu, dncFlat,
      flatten_params, dot, pyZipStar, argsortKey, dncToKeep, pyInt, pySliceTo,
      List.insertionSort, List.orderedInsert, svdUnit1, aggregate, npAddReduce,
      Finset.sort_range, List.range_succ]
  refine ⟨h1, by rw [h1]; simp, h2, by rw [h2]; simp⟩

/-- Claim C6 (amended): if all clients submit the same parameters `p`,
every `num_examples` is at least 1, and `to_keep = int(num_clients -
c*num_malicious)` is at least 1, then the final kept intersection is
non-empty and `aggregate_dnc` returns `p` exactly. -/
theorem claim_C6_amended (g : ℕ → ℕ) (results : List ((List (List ℚ)) × ℕ))
    (c : ℚ) (b : ℤ) (niters : ℕ) (m : ℕ) (svd0 : List (List ℚ) → List ℚ)
    (p : List (List ℚ)) (hne : results ≠ []) (hp : ∀ r ∈ results, r.1 = p)
    (hw : ∀ r ∈ results, 1 ≤ r.2)
    (hk1 : 1 ≤ dncToKeep results.length c m) (hniters : niters ≠ 0) :
    (∃ I, dncIntersection g results c b niters m svd0 = some I ∧ I.Nonempty) ∧
    aggregate_dnc g results c b niters m svd0 = some p := by
  have hnpos : 0 < results.length := List.length_pos.mpr hne
  have hflat : dncFlat results =
      List.replicate results.length (flatten_params p) := by
    rw [dncFlat]
    exact map_const_replicate _ _ _ (fun x hx => by rw [hp x hx])
  have hkept : ∀ k, dncKept g results c b m svd0 k =
      Finset.range ((dncToKeep results.length c m).toNat ⊓ results.length) := by
    intro k
    simp only [dncKept]
    obtain ⟨q, hq⟩ :=
      dncScores_replicate g results.length (flatten_params p) b svd0 k
    rw [hflat, hq, argsortKey_replicate, pySliceTo, if_pos (by omega),
      List.take_range, toFinset_range_eq]
  have hminpos : 0 < (dncToKeep results.length c m).toNat ⊓ results.length := by
    have h1 : 1 ≤ (dncToKeep results.length c m).toNat := by omega
    omega
  obtain ⟨nit, rfl⟩ := Nat.exists_eq_succ_of_ne_zero hniters
  have hks : dncKeptSets g results c b (nit + 1) m svd0 =
      Finset.range ((dncToKeep results.length c m).toNat ⊓ results.length) ::
        List.replicate nit (Finset.range
          ((dncToKeep results.length c m).toNat ⊓ results.length)) := by
    rw [dncKeptSets, map_const_replicate _ _ _ (fun k _ => hkept k),
      List.length_range, List.replicate_succ]
  have hint : dncIntersection g results c b (nit + 1) m svd0 =
      some (Finset.range
        ((dncToKeep results.length c m).toNat ⊓ results.length)) := by
    rw [dncIntersection_eq g results c b (nit + 1) m svd0 _ _ hks]
    exact congrArg some
      (foldl_inter_const _ _ (fun t ht => List.eq_of_mem_replicate ht))
  refine ⟨⟨_, hint, Finset.nonempty_range_iff.mpr (by omega)⟩, ?_⟩
  rw [aggregate_dnc_some g results c b (nit + 1) m svd0 _ hne hint]
  refine congrArg some ?_
  rw [Finset.sort_range]
  refine aggregate_const _ p ?_ ?_ ?_
  · simp only [ne_eq, List.map_eq_nil_iff, List.range_eq_nil]
    omega
  · intro x hx
    simp only [List.mem_map, List.mem_range] at hx
    obtain ⟨i, hi, rfl⟩ := hx
    have hilt : i < results.length := lt_of_lt_of_le hi (min_le_right _ _)
    exact hp _ (getD_mem_of_lt results i ([], 0) hilt)
  · refine pos_sum_of_one_le _ ?_ ?_
    · simp only [ne_eq, List.map_eq_nil_iff, List.range_eq_nil]
      omega
    · intro x hx
      simp only [List.map_map, List.mem_map, List.mem_range] at hx
      obtain ⟨i, hi, rfl⟩ := hx
      have hilt : i < results.length := lt_of_lt_of_le hi (min_le_right _ _)
      exact hw _ (getD_mem_of_lt results i ([], 0) hilt)

theorem claim_C6_witness :
    ([([[2], [3, 4]], 1), ([[2], [3, 4]], 2)] :
      List ((List (List ℚ)) × ℕ)) ≠ [] ∧
    (∀ r ∈ ([([[2], [3, 4]], 1), ([[2], [3, 4]], 2)] :
      List ((List (List ℚ)) × ℕ)), r.1 = [[2], [3, 4]]) ∧
    (∀ r ∈ ([([[2], [3, 4]], 1), ([[2], [3, 4]], 2)] :
      List ((List (List ℚ)) × ℕ)), 1 ≤ r.2) ∧
    1 ≤ dncToKeep ([([[2], [3, 4]], 1), ([[2], [3, 4]], 2)] :
      List ((List (List ℚ)) × ℕ)).length 1 1 ∧
    ((∃ I, dncIntersection (fun _ => 0)
        [([[2], [3, 4]], 1), ([[2], [3, 4]], 2)] 1 0 2 1 svdUnit1 = some I ∧
          I.Nonempty) ∧
      aggregate_dnc (fun _ => 0)
        [([[2], [3, 4]], 1), ([[2], [3, 4]], 2)] 1 0 2 1 svdUnit1 =
          some [[2], [3, 4]]) := by
  have hp : ∀ r ∈ ([([[2], [3, 4]], 1), ([[2], [3, 4]], 2)] :
      List ((List (List ℚ)) × ℕ)), r.1 = [[2], [3, 4]] := by
    intro r hr
    rcases List.mem_cons.mp hr with rfl | hr2
    · rfl
    · rcases List.mem_cons.mp hr2 with rfl | hr3
      · rfl
      · simp at hr3
  have hw : ∀ r ∈ ([([[2], [3, 4]], 1), ([[2], [3, 4]], 2)] :
      List ((List (List ℚ)) × ℕ)), 1 ≤ r.2 := by
    intro r hr
    rcases List.mem_cons.mp hr with rfl | hr2
    · decide
    · rcases List.mem_cons.mp hr2 with rfl | hr3
      · decide
      · simp at hr3
  have hk1 : 1 ≤ dncToKeep ([([[2], [3, 4]], 1), ([[2], [3, 4]], 2)] :
      List ((List (List ℚ)) × ℕ)).length 1 1 := by
    norm_num [dncToKeep, pyInt]
  exact ⟨by simp, hp, hw, hk1,
    claim_C6_amended (fun _ => 0) [([[2], [3, 4]], 1), ([[2], [3, 4]], 2)] 1 0 2
      1 svdUnit1 [[2], [3, 4]] (by simp) hp hw hk1 (by decide)⟩

end Flander

